import Mathlib

/-!
# tcpdump (Go): capture loop and pcap serialisation

A shallow embedding of `main.go` for linux/amd64 (`uint` and `int` are 64 bits wide).

* Bytes are natural numbers; a byte slice is a `List Nat`.
* Go integer conversions are written out with explicit reductions modulo `2^w`.
* The output `io.Writer`, the receive calls and the library panics are explicit:
  a sink records what it was given, a receive is an event of the environment,
  and a run of the loop returns how it ended.
-/

namespace Tcpdump

/-! ## Go integer conversions -/

/-- Go conversion `uint32(x)` of a signed or unsigned integer: reduction modulo `2^32`. -/
def toUint32 (x : Int) : Nat := (x % 4294967296).toNat

/-- Go conversion `int32(x)` of an unsigned 32-bit value (two's complement). -/
def toInt32 (u : Nat) : Int :=
  if u % 4294967296 < 2147483648 then (u % 4294967296 : Nat) else (u % 4294967296 : Nat) - 4294967296

/-- Go conversion `int64(x)` of an unsigned 64-bit value (two's complement). -/
def toInt64 (u : Nat) : Int :=
  if u % 18446744073709551616 < 9223372036854775808 then (u % 18446744073709551616 : Nat)
  else (u % 18446744073709551616 : Nat) - 18446744073709551616

/-! ## `encoding/binary` byte orders -/

namespace LittleEndian

/-- `binary.LittleEndian.PutUint16`: `b[0] = byte(v)`, `b[1] = byte(v >> 8)`. -/
def PutUint16 (v : Nat) : List Nat := [v % 256, v / 256 % 256]

/-- `binary.LittleEndian.PutUint32`. -/
def PutUint32 (v : Nat) : List Nat :=
  [v % 256, v / 256 % 256, v / 65536 % 256, v / 16777216 % 256]

/-- `binary.LittleEndian.Uint32` on the first four bytes of `b`. -/
def Uint32 (b : List Nat) : Nat :=
  b.getD 0 0 + 256 * b.getD 1 0 + 65536 * b.getD 2 0 + 16777216 * b.getD 3 0

/-- `binary.LittleEndian.Uint64` on the first eight bytes of `b`. -/
def Uint64 (b : List Nat) : Nat :=
  Uint32 b + 4294967296 * Uint32 (b.drop 4)

end LittleEndian

namespace BigEndian

/-- `binary.BigEndian.Uint16`: `uint16(b[1]) | uint16(b[0])<<8`. -/
def Uint16 (b : List Nat) : Nat := b.getD 1 0 + 256 * b.getD 0 0

end BigEndian

/-! ## Constants of `golang.org/x/sys/unix` (linux/amd64) -/

def ETH_P_ALL : Nat := 3
def SOL_SOCKET : Int := 1
def SCM_TIMESTAMP : Int := 29
def SizeofCmsghdr : Nat := 16

/-- A Go `error` value: a `unix.Errno`, or any other error (numbered to tell them apart). -/
inductive GoError where
  | errno (e : Nat)
  | other (tag : Nat)
  deriving DecidableEq, Repr

def EBADF : GoError := .errno 9
def EINVAL : GoError := .errno 22

/-- `func hostToNet(i uint16) uint16`: store little-endian, load big-endian. -/
def hostToNet (i : Nat) : Nat :=
  let b := LittleEndian.PutUint16 i
  BigEndian.Uint16 b

/-! ## The output sink (`io.Writer`) -/

/-- What the next `Write` call on the sink does: accept everything, or fail after
taking the first `k` bytes. -/
inductive WriteOutcome where
  | ok
  | fail (k : Nat) (e : GoError)
  deriving DecidableEq, Repr

/-- The writer `out`: the bytes it holds, the arguments of every `Write` call made
so far, and the outcomes of the calls to come (once the list is used up, writes succeed). -/
structure Sink where
  written : List Nat
  calls : List (List Nat)
  script : List WriteOutcome
  deriving DecidableEq, Repr

/-- `out.Write(p)`: returns the sink afterwards and the error (`none` is `nil`). -/
def Sink.Write (w : Sink) (p : List Nat) : Sink × Option GoError :=
  match w.script with
  | [] => ({ written := w.written ++ p, calls := w.calls ++ [p], script := [] }, none)
  | .ok :: rest => ({ written := w.written ++ p, calls := w.calls ++ [p], script := rest }, none)
  | .fail k e :: rest =>
    ({ written := w.written ++ p.take k, calls := w.calls ++ [p], script := rest }, some e)

/-- A sink none of whose coming writes fails. -/
def Sink.NeverFails (w : Sink) : Prop := ∀ o ∈ w.script, o = WriteOutcome.ok

/-- The freshly created output file. -/
def Sink.fresh (script : List WriteOutcome) : Sink :=
  { written := [], calls := [], script := script }

/-! ## Package `pcap` -/

namespace pcap

def LINKTYPE_ETHERNET : Nat := 1
def PacketHeaderLen : Nat := 16

/-- Modelled from the spec: the type `pcap.Header` of the package
`github.com/iangudger/pcap`, which is not part of the sources; the fields are those of
the global header table of section 6. -/
structure Header where
  MagicNumber : Nat
  VersionMajor : Nat
  VersionMinor : Nat
  Thiszone : Int
  Sigfigs : Nat
  Snaplen : Nat
  Network : Nat
  deriving DecidableEq, Repr

/-- Modelled from the spec: the type `pcap.PacketHeader` (per-record header table of
section 6); the field names are the ones `main` assigns. -/
structure PacketHeader where
  Seconds : Nat
  Microseconds : Nat
  IncludedLength : Nat
  OriginalLength : Nat
  deriving DecidableEq, Repr

/-- Modelled from the spec: `pcap.MakeHeader`, not part of the sources. Section 4.2:
it succeeds for a snapshot length within the 32-bit unsigned range and signals a
configuration error otherwise; section 3: timezone offset and timestamp accuracy are
zero, the snapshot length is the configured one. Magic and version are the fixed
values of the pcap format (microsecond resolution, version 2.4); the link type is
left for the caller to set. -/
def MakeHeader (maxLen : Nat) : Except GoError Header :=
  if maxLen < 4294967296 then
    .ok { MagicNumber := 0xa1b2c3d4, VersionMajor := 2, VersionMinor := 4, Thiszone := 0,
          Sigfigs := 0, Snaplen := maxLen, Network := 0 }
  else .error (.other 1)

end pcap

/-! ## Package `binary`: marshalling of fixed-layout structs -/

namespace binary

/-- `binary.Marshal(buf, binary.LittleEndian, &h)` for a `pcap.Header`: the fields in
declaration order, each little-endian at its own width, appended to `buf`. -/
def MarshalHeader (buf : List Nat) (h : pcap.Header) : List Nat :=
  buf ++ LittleEndian.PutUint32 h.MagicNumber ++ LittleEndian.PutUint16 h.VersionMajor
    ++ LittleEndian.PutUint16 h.VersionMinor ++ LittleEndian.PutUint32 (toUint32 h.Thiszone)
    ++ LittleEndian.PutUint32 h.Sigfigs ++ LittleEndian.PutUint32 h.Snaplen
    ++ LittleEndian.PutUint32 h.Network

/-- `binary.Marshal(buf, binary.LittleEndian, &ph)` for a `pcap.PacketHeader`. -/
def MarshalPacketHeader (buf : List Nat) (ph : pcap.PacketHeader) : List Nat :=
  buf ++ LittleEndian.PutUint32 ph.Seconds ++ LittleEndian.PutUint32 ph.Microseconds
    ++ LittleEndian.PutUint32 ph.IncludedLength ++ LittleEndian.PutUint32 ph.OriginalLength

end binary

/-- `func writePCAPHeader(w io.Writer, maxLen uint) error`. -/
def writePCAPHeader (w : Sink) (maxLen : Nat) : Sink × Option GoError :=
  match pcap.MakeHeader (toUint32 maxLen) with
  | .error err => (w, some err)
  | .ok h =>
    let h := { h with Network := pcap.LINKTYPE_ETHERNET }
    match w.Write (binary.MarshalHeader [] h) with
    | (w1, some err) => (w1, some err)
    | (w1, none) => (w1, none)

/-! ## Control messages and timestamps (`golang.org/x/sys/unix`, package `binary`) -/

/-- `unix.Cmsghdr` on linux/amd64: `Len uint64`, `Level int32`, `Type int32`
(`Type` is a keyword here, hence `Type_`). -/
structure Cmsghdr where
  Len : Nat
  Level : Int
  Type_ : Int
  deriving DecidableEq, Repr

/-- `unix.Timespec` on linux/amd64: `Sec int64`, `Nsec int64`. -/
structure Timespec where
  Sec : Int
  Nsec : Int
  deriving DecidableEq, Repr

/-- Result of `unix.ParseOneSocketControlMessage`: a run-time panic, an error, or the
header with the data bytes of the message. -/
inductive CmsgResult where
  | panic
  | err (e : GoError)
  | ok (hdr : Cmsghdr) (data : List Nat)
  deriving DecidableEq, Repr

/-- `unix.ParseOneSocketControlMessage(b)`. The header is read at `&b[0]` (an empty
slice panics); a length field below `SizeofCmsghdr` or above `len(b)` is `EINVAL`
(always so when `len(b) < 16`); the data is `b[16:h.Len]`. -/
def ParseOneSocketControlMessage (b : List Nat) : CmsgResult :=
  if b.length = 0 then .panic
  else if b.length < SizeofCmsghdr then .err EINVAL
  else
    let len := LittleEndian.Uint64 b
    if len < SizeofCmsghdr ∨ len > b.length then .err EINVAL
    else
      .ok { Len := len, Level := toInt32 (LittleEndian.Uint32 (b.drop 8)),
            Type_ := toInt32 (LittleEndian.Uint32 (b.drop 12)) }
          ((b.take len).drop SizeofCmsghdr)

/-- `binary.Unmarshal(cmData, binary.LittleEndian, &timespec)`: the buffer must hold
exactly the 16 bytes of the two `int64` fields; any other length panics (`none`). -/
def binary.UnmarshalTimespec (buf : List Nat) : Option Timespec :=
  if buf.length = 16 then
    some { Sec := toInt64 (LittleEndian.Uint64 buf), Nsec := toInt64 (LittleEndian.Uint64 (buf.drop 8)) }
  else none

/-- `func (ts *Timespec) Unix() (sec int64, nsec int64)`. -/
def Timespec.Unix (ts : Timespec) : Int × Int := (ts.Sec, ts.Nsec)

/-- `time.Microsecond`, in nanoseconds. -/
def Microsecond : Int := 1000

/-! ## The capture loop of `main` -/

/-- One return of `r.ReadVec(vec)`: the count `n`, the error, the bytes the call
stored at the start of `packetBuf`, and `r.ControlMessage` as the call left it. -/
structure Recv where
  n : Int
  err : Option GoError
  payload : List Nat
  control : List Nat
  deriving DecidableEq, Repr

/-- Effect of a receive on the reusable buffer: the payload overwrites the start of
the buffer, whose length never changes. -/
def storePayload (buf payload : List Nat) : List Nat :=
  payload.take buf.length ++ buf.drop payload.length

/-- Lines written by the `log.Println` calls of the loop. -/
inductive LogLine where
  | recvmsg (e : GoError)
  | parseControlMessage (e : GoError)
  | unknownSCM (hdr : Cmsghdr)
  | writePacketHeader (e : GoError)
  | writePacket (e : GoError)
  deriving DecidableEq, Repr

/-- The variables the loop updates: the writer `out`, the log and `packetBuf`. -/
structure State where
  out : Sink
  log : List LogLine
  packetBuf : List Nat
  deriving DecidableEq, Repr

/-- How one pass through the loop body ends: `continue` (or falling off the end of the
body), `return`, or a run-time panic. -/
inductive Step where
  | next
  | exit
  | crash
  deriving DecidableEq, Repr

/-- Lines 139 to 147 of `main`: the record header built from the count `n`, the
decoded time and `len(packetBuf)`. -/
def buildPacketHeader (bufLen : Nat) (n : Int) (seconds nanoSeconds : Int) : pcap.PacketHeader :=
  let ph : pcap.PacketHeader :=
    { Seconds := toUint32 seconds
      Microseconds := toUint32 (Int.tdiv nanoSeconds Microsecond)
      IncludedLength := toUint32 n
      OriginalLength := toUint32 n }
  if ph.IncludedLength > toUint32 bufLen then
    { ph with IncludedLength := toUint32 bufLen }
  else ph

/-- The slice expression `s[:k]`, which panics (`none`) when `k > len(s)`. -/
def sliceTo (s : List Nat) (k : Nat) : Option (List Nat) :=
  if k ≤ s.length then some (s.take k) else none

/-- The body of the `for` loop of `main` (lines 119 to 155) on one receive. The
variable `timespec` is not part of the state: every `Unmarshal` that returns has
overwritten both of its fields. -/
def iteration (st : State) (ev : Recv) : Step × State :=
  let st := { st with packetBuf := storePayload st.packetBuf ev.payload }
  if ev.n = 0 ∧ ev.err ≠ none then
    if ev.err ≠ some EBADF then
      (.exit, { st with log := st.log ++ (ev.err.toList.map LogLine.recvmsg) })
    else (.exit, st)
  else
    match ParseOneSocketControlMessage ev.control with
    | .panic => (.crash, st)
    | .err e => (.next, { st with log := st.log ++ [.parseControlMessage e] })
    | .ok hdr cmData =>
      if hdr.Level ≠ SOL_SOCKET ∨ hdr.Type_ ≠ SCM_TIMESTAMP then
        (.next, { st with log := st.log ++ [.unknownSCM hdr] })
      else
        match binary.UnmarshalTimespec cmData with
        | none => (.crash, st)
        | some timespec =>
          let (seconds, nanoSeconds) := timespec.Unix
          let ph := buildPacketHeader st.packetBuf.length ev.n seconds nanoSeconds
          match st.out.Write (binary.MarshalPacketHeader [] ph) with
          | (out1, some e) =>
            (.exit, { st with out := out1, log := st.log ++ [.writePacketHeader e] })
          | (out1, none) =>
            match sliceTo st.packetBuf ph.IncludedLength with
            | none => (.crash, { st with out := out1 })
            | some frame =>
              match out1.Write frame with
              | (out2, some e) =>
                (.exit, { st with out := out2, log := st.log ++ [.writePacket e] })
              | (out2, none) => (.next, { st with out := out2 })

/-- How a run of the loop over the receives of the environment ends. -/
inductive Outcome where
  | blocked
  | returned
  | crashed
  deriving DecidableEq, Repr

/-- The `for` loop of `main` run against the receives `evs`: the way it ends
(`blocked` when every receive was consumed and the loop waits for the next one), the
state then, and the receives that were never asked for. -/
def captureLoop (st : State) : List Recv → Outcome × State × List Recv
  | [] => (.blocked, st, [])
  | ev :: rest =>
    match iteration st ev with
    | (.next, st1) => captureLoop st1 rest
    | (.exit, st1) => (.returned, st1, rest)
    | (.crash, st1) => (.crashed, st1, rest)

/-- Function `main` from line 67 on, with the flags parsed and every socket call
before the loop successful: the global header, then the buffers, then the loop. A
failing `writePCAPHeader` is fatal (`none`). -/
def main (maxLen : Nat) (out : Sink) (evs : List Recv) : Option (Outcome × State × List Recv) :=
  match writePCAPHeader out maxLen with
  | (_, some _) => none
  | (out1, none) =>
    some (captureLoop { out := out1, log := [], packetBuf := List.replicate maxLen 0 } evs)

/-! ## A reader of the file format of section 6 -/

/-- One record as a reader of the format sees it. -/
structure PcapRecord where
  seconds : Nat
  microseconds : Nat
  capturedLength : Nat
  originalLength : Nat
  data : List Nat
  deriving DecidableEq, Repr

/-- Reads records until the input is used up: a 16-byte little-endian record header,
then `captured length` bytes of data. `none` when the input stops inside a record. -/
def readRecords : Nat → List Nat → Option (List PcapRecord)
  | 0, bytes => if bytes = [] then some [] else none
  | fuel + 1, bytes =>
    if bytes = [] then some []
    else if bytes.length < 16 then none
    else
      let captured := LittleEndian.Uint32 (bytes.drop 8)
      let rest := bytes.drop 16
      if rest.length < captured then none
      else
        match readRecords fuel (rest.drop captured) with
        | none => none
        | some recs =>
          some ({ seconds := LittleEndian.Uint32 bytes
                  microseconds := LittleEndian.Uint32 (bytes.drop 4)
                  capturedLength := captured
                  originalLength := LittleEndian.Uint32 (bytes.drop 12)
                  data := rest.take captured } :: recs)

/-- Reader of a whole file: the 24-byte global header (returned as is), then the
records. Every record takes at least 16 bytes, so the length of the input is fuel
enough. -/
def readPcap (file : List Nat) : Option (List Nat × List PcapRecord) :=
  if file.length < 24 then none
  else
    match readRecords file.length (file.drop 24) with
    | none => none
    | some recs => some (file.take 24, recs)

/-- The timestamp control message the kernel attaches: a `Cmsghdr` of length 32 with
level `SOL_SOCKET` and type `SCM_TIMESTAMP`, followed by two 64-bit fields. -/
def timestampMessage (sec nsec : Nat) : List Nat :=
  LittleEndian.PutUint32 32 ++ LittleEndian.PutUint32 0 ++ LittleEndian.PutUint32 1
    ++ LittleEndian.PutUint32 29 ++ LittleEndian.PutUint32 sec ++ LittleEndian.PutUint32 (sec / 4294967296)
    ++ LittleEndian.PutUint32 nsec ++ LittleEndian.PutUint32 (nsec / 4294967296)

/-- The loop accepts the control message of this receive and decodes `ts` from it. -/
def Recv.AcceptedWith (ev : Recv) (ts : Timespec) : Prop :=
  ¬ (ev.n = 0 ∧ ev.err ≠ none) ∧
  ∃ hdr cmData, ParseOneSocketControlMessage ev.control = .ok hdr cmData ∧
    hdr.Level = SOL_SOCKET ∧ hdr.Type_ = SCM_TIMESTAMP ∧
    binary.UnmarshalTimespec cmData = some ts

/-! ## The two writes of an accepted iteration -/

/-- The state in which the body of the loop works once the receive has returned. -/
def afterRecv (st : State) (ev : Recv) : State :=
  { st with packetBuf := storePayload st.packetBuf ev.payload }

/-- The two writes of an iteration whose control message is accepted. -/
def writeRecord (st : State) (ph : pcap.PacketHeader) : Step × State :=
  match st.out.Write (binary.MarshalPacketHeader [] ph) with
  | (out1, some e) => (.exit, { st with out := out1, log := st.log ++ [.writePacketHeader e] })
  | (out1, none) =>
    match out1.Write (st.packetBuf.take ph.IncludedLength) with
    | (out2, some e) => (.exit, { st with out := out2, log := st.log ++ [.writePacket e] })
    | (out2, none) => (.next, { st with out := out2 })

/-! ## Small concrete inputs -/

/-- State at the head of the loop: nothing logged, `packetBuf` as `make` returns it. -/
def loopStart (out : Sink) (maxLen : Nat) : State :=
  { out := out, log := [], packetBuf := List.replicate maxLen 0 }

/-- A receive of the six bytes 1 to 6 stamped 5 s and 1999 ns, as `ReadVec` returns
it into a buffer of six bytes or more. -/
def sixByteRecv : Recv :=
  { n := 6, err := none, payload := [1, 2, 3, 4, 5, 6], control := timestampMessage 5 1999 }

/-- A receive of two bytes whose control message has a length field of zero. -/
def badControlRecv : Recv :=
  { n := 2, err := none, payload := [9, 8],
    control := [0, 0, 0, 0, 0, 0, 0, 0, 0, 0, 0, 0, 0, 0, 0, 0] }

/-- The receive that the closing of the socket unblocks. -/
def closedRecv : Recv :=
  { n := 0, err := some EBADF, payload := [], control := [] }

/-- The 24 bytes of the global header for the snapshot length `snaplen`: magic, version
2.4, two zero words, the snapshot length and the Ethernet link type, all little-endian. -/
def globalHeaderBytes (snaplen : Nat) : List Nat :=
  [0xd4, 0xc3, 0xb2, 0xa1, 2, 0, 4, 0, 0, 0, 0, 0, 0, 0, 0, 0] ++ LittleEndian.PutUint32 snaplen
    ++ LittleEndian.PutUint32 pcap.LINKTYPE_ETHERNET

/-! ## Records as the loop writes them -/

/-- State after an iteration both of whose writes succeeded, for the decoded time `ts`. -/
def recordWritten (st : State) (ev : Recv) (ts : Timespec) : State :=
  { out :=
      { written := st.out.written ++
          binary.MarshalPacketHeader [] (buildPacketHeader st.packetBuf.length ev.n ts.Sec ts.Nsec) ++
          (storePayload st.packetBuf ev.payload).take
            (buildPacketHeader st.packetBuf.length ev.n ts.Sec ts.Nsec).IncludedLength
        calls := st.out.calls ++
          [binary.MarshalPacketHeader [] (buildPacketHeader st.packetBuf.length ev.n ts.Sec ts.Nsec),
           (storePayload st.packetBuf ev.payload).take
            (buildPacketHeader st.packetBuf.length ev.n ts.Sec ts.Nsec).IncludedLength]
        script := st.out.script.tail.tail }
    log := st.log
    packetBuf := storePayload st.packetBuf ev.payload }

/-- Bytes of one record: the encoded header, then the data. -/
def recordBytes (r : pcap.PacketHeader × List Nat) : List Nat :=
  binary.MarshalPacketHeader [] r.1 ++ r.2

/-- The record a reader is to find for a header and its data. -/
def toPcapRecord (r : pcap.PacketHeader × List Nat) : PcapRecord :=
  { seconds := r.1.Seconds, microseconds := r.1.Microseconds,
    capturedLength := r.1.IncludedLength, originalLength := r.1.OriginalLength, data := r.2 }

/-- A header all of whose fields fit 32 bits, with as many data bytes as it announces. -/
def WellFormedRecord (r : pcap.PacketHeader × List Nat) : Prop :=
  r.1.Seconds < 4294967296 ∧ r.1.Microseconds < 4294967296 ∧ r.1.IncludedLength < 4294967296 ∧
  r.1.OriginalLength < 4294967296 ∧ r.2.length = r.1.IncludedLength

/-- A receive that delivers a frame into a buffer of `bufLen` bytes: its control
message is accepted, and the count returned fits 32 bits, does not exceed the buffer
and is the number of bytes stored. -/
def Recv.IsFrame (bufLen : Nat) (ev : Recv) : Prop :=
  (∃ ts, ev.AcceptedWith ts) ∧ 0 ≤ ev.n ∧ ev.n < 4294967296 ∧ ev.payload.length = ev.n.toNat ∧
  ev.n.toNat ≤ bufLen

/-- Lengths and data of a record as read back. -/
def PcapRecord.view (r : PcapRecord) : Nat × Nat × List Nat :=
  (r.capturedLength, r.originalLength, r.data)

/-- What a reader is to recover of a frame under the snapshot length `snaplen`: the
captured length, the original length and the first bytes of the frame. -/
def Recv.expected (snaplen : Nat) (ev : Recv) : Nat × Nat × List Nat :=
  (min ev.n.toNat snaplen, ev.n.toNat, ev.payload.take (min ev.n.toNat snaplen))

/-- A receive of the two bytes 7, 7 stamped 5 s and 1999 ns, as `ReadVec` returns it
into a buffer of two bytes or more. -/
def twoByteRecv : Recv :=
  { n := 2, err := none, payload := [7, 7], control := timestampMessage 5 1999 }

/-! ## The receive call against what the socket delivers -/

/-- The error `errMessageTruncated` of package `unet`. -/
def errMessageTruncated : GoError := .other 2

/-- The error `io.EOF`. -/
def EOF : GoError := .other 3

/-- What one `recvmsg` on the packet socket finds: a frame with the control message the
kernel attached to it, or a failure of the call (among them the closing of the socket). -/
inductive Arrival where
  | frame (bytes : List Nat) (control : List Nat)
  | failure (e : GoError)
  deriving DecidableEq, Repr

/-- `(*unet.SocketReader).ReadVec` of `gvisor.dev/gvisor/pkg/unet` on the single buffer
`packetBuf` of `bufLen` bytes. The kernel reports the size of the whole frame; a size
above the buffer comes back as `(bufLen, errMessageTruncated)` with the first `bufLen`
bytes stored, a size of zero as `(0, io.EOF)`, a failing call as `(0, err)`. The count
returned never exceeds the length of the buffer. -/
def ReadVec (bufLen : Nat) : Arrival → Recv
  | .failure e => { n := 0, err := some e, payload := [], control := [] }
  | .frame bytes control =>
    if bytes.length = 0 then { n := 0, err := some EOF, payload := [], control := control }
    else if bytes.length > bufLen then
      { n := bufLen, err := some errMessageTruncated, payload := bytes.take bufLen,
        control := control }
    else { n := bytes.length, err := none, payload := bytes, control := control }

/-- Function `main` from line 67 on against what the socket delivers: each receive is
the return of `ReadVec` on `packetBuf`, whose length is `maxLen` throughout. -/
def capture (maxLen : Nat) (out : Sink) (arrivals : List Arrival) :
    Option (Outcome × State × List Recv) :=
  main maxLen out (arrivals.map (ReadVec maxLen))

/-- A frame of `k` bytes, all equal to `b`, whose timestamp message carries 5 and 1999
in its two time fields. -/
def uniformFrame (k b : Nat) : Arrival :=
  .frame (List.replicate k b) (timestampMessage 5 1999)

/-- The frame of the two bytes 7, 7 with the same stamp. -/
def twoByteFrame : Arrival :=
  .frame [7, 7] (timestampMessage 5 1999)

/-! ## Auxiliary facts -/

theorem toUint32_natCast (m : Nat) : toUint32 (m : Int) = m % 4294967296 := by
  unfold toUint32
  omega

theorem toUint32_of_range (x : Int) (h0 : 0 ≤ x) (h1 : x < 4294967296) :
    toUint32 x = x.toNat := by
  unfold toUint32
  omega

theorem toUint32_lt (x : Int) : toUint32 x < 4294967296 := by
  unfold toUint32
  omega

theorem buildPacketHeader_included (bufLen : Nat) (n s ns : Int) :
    (buildPacketHeader bufLen n s ns).IncludedLength = min (toUint32 n) (bufLen % 4294967296) := by
  unfold buildPacketHeader
  simp only [toUint32_natCast]
  split <;> rename_i h <;> simp only [] at h ⊢ <;> omega

theorem buildPacketHeader_original (bufLen : Nat) (n s ns : Int) :
    (buildPacketHeader bufLen n s ns).OriginalLength = toUint32 n := by
  unfold buildPacketHeader
  simp only [toUint32_natCast]
  split <;> rfl

theorem hostToNet_eq (i : Nat) : hostToNet i = i % 256 * 256 + i / 256 % 256 := by
  simp [hostToNet, LittleEndian.PutUint16, BigEndian.Uint16]
  omega

theorem storePayload_length (buf payload : List Nat) :
    (storePayload buf payload).length = buf.length := by
  unfold storePayload
  simp only [List.length_append, List.length_take, List.length_drop]
  omega

theorem storePayload_take (buf payload : List Nat) (k : Nat)
    (hk : k ≤ payload.length) (hb : k ≤ buf.length) :
    (storePayload buf payload).take k = payload.take k := by
  unfold storePayload
  rw [List.take_append_of_le_length (by simp only [List.length_take]; omega)]
  rw [List.take_take]
  congr 1
  omega

theorem buildPacketHeader_le (bufLen : Nat) (n s ns : Int) :
    (buildPacketHeader bufLen n s ns).IncludedLength ≤ bufLen := by
  rw [buildPacketHeader_included]
  have := Nat.mod_le bufLen 4294967296
  omega

theorem iteration_accepted (st : State) (ev : Recv) (ts : Timespec)
    (h : ev.AcceptedWith ts) :
    iteration st ev =
      writeRecord (afterRecv st ev) (buildPacketHeader st.packetBuf.length ev.n ts.Sec ts.Nsec) := by
  obtain ⟨hrecv, hdr, cmData, hparse, hlevel, htype, hts⟩ := h
  have hle := buildPacketHeader_le (storePayload st.packetBuf ev.payload).length ev.n ts.Sec ts.Nsec
  unfold iteration writeRecord afterRecv
  simp only [hrecv, if_false, hparse, hlevel, htype, hts, ne_eq, not_true_eq_false, or_self,
    Timespec.Unix, sliceTo, hle, if_true, storePayload_length]
  rw [storePayload_length] at hle
  simp only [hle, if_true]

/-! ## Accepted iterations -/

theorem buildPacketHeader_micro (bufLen : Nat) (n s ns : Int) :
    (buildPacketHeader bufLen n s ns).Microseconds = toUint32 (Int.tdiv ns Microsecond) := by
  unfold buildPacketHeader
  dsimp only
  split <;> rfl

theorem sixByteRecv_accepted : sixByteRecv.AcceptedWith { Sec := 5, Nsec := 1999 } :=
  ⟨by decide, { Len := 32, Level := 1, Type_ := 29 },
    [5, 0, 0, 0, 0, 0, 0, 0, 207, 7, 0, 0, 0, 0, 0, 0], by decide, by decide, by decide, by decide⟩

theorem writeRecord_calls (st : State) (ph : pcap.PacketHeader) :
    ∃ tail, (writeRecord st ph).2.out.calls
      = st.out.calls ++ binary.MarshalPacketHeader [] ph :: tail := by
  unfold writeRecord Sink.Write
  rcases st.out.script with _ | ⟨o, rest⟩
  · exact ⟨[st.packetBuf.take ph.IncludedLength], by simp⟩
  · cases o with
    | ok =>
      rcases rest with _ | ⟨o2, rest2⟩
      · exact ⟨[st.packetBuf.take ph.IncludedLength], by simp⟩
      · cases o2 <;> exact ⟨[st.packetBuf.take ph.IncludedLength], by simp⟩
    | fail k e => exact ⟨[], by simp⟩

/-! ## Runs with a sink that never fails -/

theorem Sink.Write_neverFails (w : Sink) (p : List Nat) (h : w.NeverFails) :
    w.Write p = ({ written := w.written ++ p, calls := w.calls ++ [p], script := w.script.tail }, none) := by
  unfold Sink.Write
  rcases hs : w.script with _ | ⟨o, rest⟩
  · rfl
  · have := h o (by rw [hs]; exact List.mem_cons_self _ _)
    subst this
    rfl

theorem NeverFails_tail (w : Sink) (h : w.NeverFails) (wr : List Nat) (cs : List (List Nat)) :
    Sink.NeverFails { written := wr, calls := cs, script := w.script.tail } := by
  intro o ho
  exact h o (List.mem_of_mem_tail ho)

theorem writeRecord_neverFails (st : State) (ph : pcap.PacketHeader) (hnf : st.out.NeverFails) :
    writeRecord st ph
      = (Step.next,
          { st with
            out :=
              { written := st.out.written ++ binary.MarshalPacketHeader [] ph ++
                  st.packetBuf.take ph.IncludedLength
                calls := st.out.calls ++
                  [binary.MarshalPacketHeader [] ph, st.packetBuf.take ph.IncludedLength]
                script := st.out.script.tail.tail } }) := by
  unfold writeRecord
  rw [Sink.Write_neverFails _ _ hnf]
  dsimp only
  rw [Sink.Write_neverFails _ _ (NeverFails_tail st.out hnf _ _)]
  simp only [List.append_assoc, List.cons_append, List.nil_append]

theorem captureLoop_cons_accepted (st : State) (ev : Recv) (ts : Timespec) (rest : List Recv)
    (hnf : st.out.NeverFails) (hacc : ev.AcceptedWith ts) :
    captureLoop st (ev :: rest) = captureLoop (recordWritten st ev ts) rest := by
  rw [captureLoop, iteration_accepted st ev ts hacc,
    writeRecord_neverFails (afterRecv st ev) _ (by exact hnf)]
  rfl

theorem recordWritten_neverFails (st : State) (ev : Recv) (ts : Timespec)
    (hnf : st.out.NeverFails) : (recordWritten st ev ts).out.NeverFails := by
  intro o ho
  exact hnf o (List.mem_of_mem_tail (List.mem_of_mem_tail ho))

theorem buildPacketHeader_eq (bufLen : Nat) (n s ns : Int) :
    buildPacketHeader bufLen n s ns
      = { Seconds := toUint32 s, Microseconds := toUint32 (Int.tdiv ns Microsecond),
          IncludedLength := min (toUint32 n) (bufLen % 4294967296), OriginalLength := toUint32 n } := by
  have h1 := buildPacketHeader_included bufLen n s ns
  have h2 := buildPacketHeader_original bufLen n s ns
  have h3 := buildPacketHeader_micro bufLen n s ns
  have h4 : (buildPacketHeader bufLen n s ns).Seconds = toUint32 s := by
    unfold buildPacketHeader
    dsimp only
    split <;> rfl
  rcases hb : buildPacketHeader bufLen n s ns with ⟨a, b, c, d⟩
  rw [hb] at h1 h2 h3 h4
  simp only at h1 h2 h3 h4
  rw [h1, h2, h3, h4]

theorem timestampMessage_parse :
    ParseOneSocketControlMessage (timestampMessage 5 1999)
      = CmsgResult.ok { Len := 32, Level := 1, Type_ := 29 }
          [5, 0, 0, 0, 0, 0, 0, 0, 207, 7, 0, 0, 0, 0, 0, 0] := by
  decide

theorem accepted_of_stamp (ev : Recv) (hc : ev.control = timestampMessage 5 1999)
    (hn : ¬ (ev.n = 0 ∧ ev.err ≠ none)) : ev.AcceptedWith { Sec := 5, Nsec := 1999 } := by
  refine ⟨hn, { Len := 32, Level := 1, Type_ := 29 },
    [5, 0, 0, 0, 0, 0, 0, 0, 207, 7, 0, 0, 0, 0, 0, 0], ?_, by decide, by decide, by decide⟩
  rw [hc]
  exact timestampMessage_parse

theorem ReadVec_fits (bufLen : Nat) (bytes control : List Nat) (k : Nat)
    (hk : bytes.length = k) (h0 : k ≠ 0) (hle : k ≤ bufLen) :
    ReadVec bufLen (Arrival.frame bytes control)
      = { n := (k : Int), err := none, payload := bytes, control := control } := by
  simp only [ReadVec]
  rw [hk, if_neg h0, if_neg (by omega)]

theorem ReadVec_truncated (bufLen : Nat) (bytes control : List Nat) (k : Nat)
    (hk : bytes.length = k) (hlt : bufLen < k) :
    ReadVec bufLen (Arrival.frame bytes control)
      = { n := (bufLen : Int), err := some errMessageTruncated, payload := bytes.take bufLen,
          control := control } := by
  simp only [ReadVec]
  rw [hk, if_neg (by omega), if_pos (by omega)]

theorem iteration_calls (st : State) (ev : Recv) (ts : Timespec)
    (hnf : st.out.NeverFails) (hacc : ev.AcceptedWith ts) :
    (iteration st ev).2.out.calls
      = st.out.calls ++
        [binary.MarshalPacketHeader [] (buildPacketHeader st.packetBuf.length ev.n ts.Sec ts.Nsec),
         (storePayload st.packetBuf ev.payload).take
          (buildPacketHeader st.packetBuf.length ev.n ts.Sec ts.Nsec).IncludedLength] := by
  rw [iteration_accepted st ev ts hacc, writeRecord_neverFails (afterRecv st ev) _ (by exact hnf)]
  rfl

/-! ## C1: lengths in the record header -/

/-- C1, at the failing input. With a receive buffer of `2^32 + 100` bytes
(`-len 4294967396`) and a frame of 1500 bytes, `ReadVec` returns the count 1500, and the
iteration hands to the sink a record header whose captured length is 100 and whose
original length is 1500, followed by 100 bytes of the frame; the minimum of the count and
the snapshot length is 1500. -/
theorem record_header_lengths_wide_buffer :
    ReadVec 4294967396 (uniformFrame 1500 7)
      = { n := 1500, err := none, payload := List.replicate 1500 7,
          control := timestampMessage 5 1999 } ∧
    (iteration (loopStart (Sink.fresh []) 4294967396)
        (ReadVec 4294967396 (uniformFrame 1500 7))).2.out.calls
      = [[5, 0, 0, 0, 1, 0, 0, 0, 100, 0, 0, 0, 220, 5, 0, 0], List.replicate 100 7] ∧
    LittleEndian.Uint32 ([5, 0, 0, 0, 1, 0, 0, 0, 100, 0, 0, 0, 220, 5, 0, 0].drop 8) = 100 ∧
    LittleEndian.Uint32 ([5, 0, 0, 0, 1, 0, 0, 0, 100, 0, 0, 0, 220, 5, 0, 0].drop 12) = 1500 ∧
    min 1500 4294967396 = 1500 := by
  have hr : ReadVec 4294967396 (uniformFrame 1500 7)
      = { n := 1500, err := none, payload := List.replicate 1500 7,
          control := timestampMessage 5 1999 } :=
    ReadVec_fits 4294967396 (List.replicate 1500 7) (timestampMessage 5 1999) 1500
      (List.length_replicate _ _) (by decide) (by decide)
  refine ⟨hr, ?_, by decide, by decide, by decide⟩
  rw [hr]
  have hacc := accepted_of_stamp
    ⟨1500, none, List.replicate 1500 7, timestampMessage 5 1999⟩ rfl (by decide)
  have hnf : (loopStart (Sink.fresh []) 4294967396).out.NeverFails := fun o ho => by cases ho
  have hlen : (loopStart (Sink.fresh []) 4294967396).packetBuf.length = 4294967396 :=
    List.length_replicate _ _
  rw [iteration_calls _ _ _ hnf hacc, hlen]
  have hph : buildPacketHeader 4294967396 1500 5 1999
      = { Seconds := 5, Microseconds := 1, IncludedLength := 100, OriginalLength := 1500 } := by
    decide
  have hdata : (storePayload (loopStart (Sink.fresh []) 4294967396).packetBuf
      (List.replicate 1500 7)).take 100 = List.replicate 100 7 := by
    rw [storePayload_take _ _ _ (by rw [List.length_replicate]; decide) (by rw [hlen]; decide),
      List.take_replicate]
    exact congrArg (fun k => List.replicate k 7) (by decide)
  have hm : binary.MarshalPacketHeader []
      { Seconds := 5, Microseconds := 1, IncludedLength := 100, OriginalLength := 1500 }
      = [5, 0, 0, 0, 1, 0, 0, 0, 100, 0, 0, 0, 220, 5, 0, 0] := by decide
  show [] ++ [binary.MarshalPacketHeader [] (buildPacketHeader 4294967396 1500 5 1999),
    (storePayload (loopStart (Sink.fresh []) 4294967396).packetBuf (List.replicate 1500 7)).take
      (buildPacketHeader 4294967396 1500 5 1999).IncludedLength] = _
  rw [hph, hm]
  show [[5, 0, 0, 0, 1, 0, 0, 0, 100, 0, 0, 0, 220, 5, 0, 0],
    (storePayload (loopStart (Sink.fresh []) 4294967396).packetBuf (List.replicate 1500 7)).take
      100] = _
  rw [hdata]

/-! ## C10: byte swap -/

/-- C10. On every 16-bit value `hostToNet` exchanges the two bytes, it is its own
inverse, and `hostToNet ETH_P_ALL` is `0x0300`. -/
theorem hostToNet_swap (i : Nat) (h : i < 65536) :
    hostToNet i = i % 256 * 256 + i / 256 ∧ hostToNet (hostToNet i) = i ∧
    hostToNet ETH_P_ALL = 0x0300 := by
  refine ⟨?_, ?_, by decide⟩
  · rw [hostToNet_eq]
    omega
  · rw [hostToNet_eq, hostToNet_eq]
    have h1 : (i % 256 * 256 + i / 256 % 256) % 256 = i / 256 := by omega
    have h2 : (i % 256 * 256 + i / 256 % 256) / 256 = i % 256 := by omega
    rw [h1, h2]
    omega

/-- Witness of C10 at `0x1234`. -/
theorem hostToNet_swap_witness :
    0x1234 < 65536 ∧ hostToNet 0x1234 = 0x3412 ∧ hostToNet (hostToNet 0x1234) = 0x1234 :=
  ⟨by decide, (hostToNet_swap 0x1234 (by decide)).1, (hostToNet_swap 0x1234 (by decide)).2.1⟩

/-! ## C2: microseconds -/

theorem micro_field (ph : pcap.PacketHeader) (h : ph.Microseconds < 4294967296) :
    LittleEndian.Uint32 ((binary.MarshalPacketHeader [] ph).drop 4) = ph.Microseconds := by
  simp [binary.MarshalPacketHeader, LittleEndian.PutUint32, LittleEndian.Uint32]
  omega

/-- C2. In an iteration whose timestamp message is accepted and carries a
nanosecond component within `[0, 999999999]`, the microseconds field of the encoded
record header handed to the sink is that component divided by 1000 with the remainder
discarded, and it is at most 999999. -/
theorem record_header_microseconds (st : State) (ev : Recv) (ts : Timespec)
    (hacc : ev.AcceptedWith ts) (h0 : 0 ≤ ts.Nsec) (h1 : ts.Nsec < 1000000000) :
    (∃ tail, (iteration st ev).2.out.calls
        = st.out.calls
          ++ binary.MarshalPacketHeader [] (buildPacketHeader st.packetBuf.length ev.n ts.Sec ts.Nsec)
            :: tail) ∧
    LittleEndian.Uint32 ((binary.MarshalPacketHeader []
        (buildPacketHeader st.packetBuf.length ev.n ts.Sec ts.Nsec)).drop 4)
      = ts.Nsec.toNat / 1000 ∧
    ts.Nsec.toNat / 1000 ≤ 999999 := by
  have hm : (buildPacketHeader st.packetBuf.length ev.n ts.Sec ts.Nsec).Microseconds
      = ts.Nsec.toNat / 1000 := by
    rw [buildPacketHeader_micro]
    unfold Microsecond
    rw [Int.tdiv_eq_ediv h0 (by decide)]
    unfold toUint32
    omega
  refine ⟨?_, ?_, by omega⟩
  · rw [iteration_accepted st ev ts hacc]
    exact writeRecord_calls (afterRecv st ev) _
  · rw [micro_field _ (by rw [hm]; omega), hm]

/-- Witness of C2: 1999 ns become 1 µs. -/
theorem record_header_microseconds_witness :
    sixByteRecv.AcceptedWith { Sec := 5, Nsec := 1999 } ∧
    LittleEndian.Uint32 ((binary.MarshalPacketHeader [] (buildPacketHeader 8 6 5 1999)).drop 4)
      = 1 :=
  ⟨sixByteRecv_accepted,
    (record_header_microseconds (loopStart (Sink.fresh []) 8) sixByteRecv { Sec := 5, Nsec := 1999 }
      sixByteRecv_accepted (by decide) (by decide)).2.1⟩

/-! ## C3: skipped frames -/

/-- C3. When the receive succeeds but the control message fails to parse or has
another level or type than `(SOL_SOCKET, SCM_TIMESTAMP)`, the iteration leaves the sink
exactly as it was and the loop goes on with the next receive. -/
theorem skipped_frame_leaves_sink (st : State) (ev : Recv) (rest : List Recv)
    (hrecv : ¬ (ev.n = 0 ∧ ev.err ≠ none))
    (hbad : (∃ e, ParseOneSocketControlMessage ev.control = .err e) ∨
      (∃ hdr cmData, ParseOneSocketControlMessage ev.control = .ok hdr cmData ∧
        (hdr.Level ≠ SOL_SOCKET ∨ hdr.Type_ ≠ SCM_TIMESTAMP))) :
    (iteration st ev).1 = Step.next ∧ (iteration st ev).2.out = st.out ∧
    captureLoop st (ev :: rest) = captureLoop (iteration st ev).2 rest := by
  have hstep : (iteration st ev).1 = Step.next ∧ (iteration st ev).2.out = st.out := by
    unfold iteration
    rcases hbad with ⟨e, he⟩ | ⟨hdr, cmData, hp, hne⟩
    · simp only [hrecv, if_false, he, and_self]
    · simp only [hrecv, if_false, hp, hne, if_true, and_self]
  refine ⟨hstep.1, hstep.2, ?_⟩
  have h1 := hstep.1
  rw [captureLoop]
  rcases hit : iteration st ev with ⟨s, st1⟩
  rw [hit] at h1
  simp only at h1
  subst h1
  rfl

/-- Witness of C3: a control message whose length field is zero. -/
theorem skipped_frame_leaves_sink_witness :
    ParseOneSocketControlMessage badControlRecv.control = .err EINVAL ∧
    (iteration (loopStart (Sink.fresh []) 8) badControlRecv).2.out = Sink.fresh [] ∧
    captureLoop (loopStart (Sink.fresh []) 8) [badControlRecv, closedRecv]
      = captureLoop (iteration (loopStart (Sink.fresh []) 8) badControlRecv).2 [closedRecv] :=
  have h := skipped_frame_leaves_sink (loopStart (Sink.fresh []) 8) badControlRecv [closedRecv]
    (by decide) (Or.inl ⟨EINVAL, by decide⟩)
  ⟨by decide, h.2.1, h.2.2⟩

/-! ## C9: end of the loop on a zero-byte receive -/

/-- C9. A receive of zero bytes with `EBADF` ends the loop with the sink and the log
untouched; a receive of zero bytes with any other error ends it too, with the sink
untouched and one `recvmsg:` line logged. No later receive is asked for. -/
theorem zero_byte_receive_exits (st : State) (ev : Recv) (rest : List Recv) (hn : ev.n = 0) :
    (ev.err = some EBADF →
      captureLoop st (ev :: rest) = (Outcome.returned, afterRecv st ev, rest) ∧
      (afterRecv st ev).out = st.out ∧ (afterRecv st ev).log = st.log) ∧
    (∀ e, ev.err = some e → e ≠ EBADF →
      captureLoop st (ev :: rest)
        = (Outcome.returned, { afterRecv st ev with log := st.log ++ [LogLine.recvmsg e] }, rest)) := by
  refine ⟨fun he => ⟨?_, rfl, rfl⟩, fun e he hne => ?_⟩
  · rw [captureLoop]
    unfold iteration afterRecv
    simp [hn, he]
  · rw [captureLoop]
    unfold iteration afterRecv
    simp [hn, he, hne]

/-- Witness of C9: the receive unblocked by the closing of the socket. -/
theorem zero_byte_receive_exits_witness :
    closedRecv.n = 0 ∧ closedRecv.err = some EBADF ∧
    captureLoop (loopStart (Sink.fresh []) 8) [closedRecv, sixByteRecv]
      = (Outcome.returned, afterRecv (loopStart (Sink.fresh []) 8) closedRecv, [sixByteRecv]) :=
  ⟨rfl, rfl,
    ((zero_byte_receive_exits (loopStart (Sink.fresh []) 8) closedRecv [sixByteRecv] rfl).1 rfl).1⟩

/-! ## C8: failing writes -/

/-- C8. In an iteration whose control message is accepted: if the write of the record
header fails, the loop returns after that single `Write` call, the frame bytes are not
handed to the sink and the receives that remain are never asked for; if the header is
written and the write of the frame fails, the loop returns after that second call. In
both cases the sink holds what it held before, followed by what the failing call let
through. -/
theorem write_failure_exits (st : State) (ev : Recv) (ts : Timespec) (rest : List Recv)
    (k : Nat) (e : GoError) (script : List WriteOutcome) (hacc : ev.AcceptedWith ts) :
    (st.out.script = WriteOutcome.fail k e :: script →
      captureLoop st (ev :: rest)
        = (Outcome.returned,
            { out :=
                { written := st.out.written ++
                    (binary.MarshalPacketHeader []
                      (buildPacketHeader st.packetBuf.length ev.n ts.Sec ts.Nsec)).take k
                  calls := st.out.calls ++
                    [binary.MarshalPacketHeader []
                      (buildPacketHeader st.packetBuf.length ev.n ts.Sec ts.Nsec)]
                  script := script }
              log := st.log ++ [LogLine.writePacketHeader e]
              packetBuf := storePayload st.packetBuf ev.payload },
            rest)) ∧
    (st.out.script = WriteOutcome.ok :: WriteOutcome.fail k e :: script →
      captureLoop st (ev :: rest)
        = (Outcome.returned,
            { out :=
                { written := st.out.written ++
                    binary.MarshalPacketHeader []
                      (buildPacketHeader st.packetBuf.length ev.n ts.Sec ts.Nsec) ++
                    ((storePayload st.packetBuf ev.payload).take
                      (buildPacketHeader st.packetBuf.length ev.n ts.Sec ts.Nsec).IncludedLength).take k
                  calls := st.out.calls ++
                    [binary.MarshalPacketHeader []
                      (buildPacketHeader st.packetBuf.length ev.n ts.Sec ts.Nsec)] ++
                    [(storePayload st.packetBuf ev.payload).take
                      (buildPacketHeader st.packetBuf.length ev.n ts.Sec ts.Nsec).IncludedLength]
                  script := script }
              log := st.log ++ [LogLine.writePacket e]
              packetBuf := storePayload st.packetBuf ev.payload },
            rest)) := by
  constructor
  · intro hs
    rw [captureLoop, iteration_accepted st ev ts hacc]
    unfold writeRecord afterRecv Sink.Write
    simp only [hs]
  · intro hs
    rw [captureLoop, iteration_accepted st ev ts hacc]
    unfold writeRecord afterRecv Sink.Write
    simp only [hs]

/-- Witness of C8: the write of the record header fails after three bytes. -/
theorem write_failure_exits_witness :
    sixByteRecv.AcceptedWith { Sec := 5, Nsec := 1999 } ∧
    captureLoop (loopStart (Sink.fresh [WriteOutcome.fail 3 (GoError.errno 28)]) 8)
        [sixByteRecv, sixByteRecv]
      = (Outcome.returned,
          { out := { written := [5, 0, 0]
                     calls := [[5, 0, 0, 0, 1, 0, 0, 0, 6, 0, 0, 0, 6, 0, 0, 0]]
                     script := [] }
            log := [LogLine.writePacketHeader (GoError.errno 28)]
            packetBuf := [1, 2, 3, 4, 5, 6, 0, 0] },
          [sixByteRecv]) :=
  ⟨sixByteRecv_accepted,
    (write_failure_exits (loopStart (Sink.fresh [WriteOutcome.fail 3 (GoError.errno 28)]) 8)
      sixByteRecv { Sec := 5, Nsec := 1999 } [sixByteRecv] 3 (GoError.errno 28) []
      sixByteRecv_accepted).1 rfl⟩

/-! ## C6 and C7: the global header -/

theorem Uint32_PutUint32 (v : Nat) (hv : v < 4294967296) (rest : List Nat) :
    LittleEndian.Uint32 (LittleEndian.PutUint32 v ++ rest) = v := by
  simp [LittleEndian.PutUint32, LittleEndian.Uint32]
  omega

theorem MarshalHeader_ethernet (m : Nat) :
    binary.MarshalHeader []
      { MagicNumber := 0xa1b2c3d4, VersionMajor := 2, VersionMinor := 4, Thiszone := 0,
        Sigfigs := 0, Snaplen := m, Network := pcap.LINKTYPE_ETHERNET }
      = globalHeaderBytes m := by
  unfold binary.MarshalHeader globalHeaderBytes
  have h1 : LittleEndian.PutUint32 0xa1b2c3d4 = [0xd4, 0xc3, 0xb2, 0xa1] := by decide
  have h2 : LittleEndian.PutUint16 2 = [2, 0] := by decide
  have h3 : LittleEndian.PutUint16 4 = [4, 0] := by decide
  have h4 : LittleEndian.PutUint32 (toUint32 0) = [0, 0, 0, 0] := by decide
  have h5 : LittleEndian.PutUint32 0 = [0, 0, 0, 0] := by decide
  simp only [h1, h2, h3, h4, h5, List.nil_append, List.cons_append, List.append_assoc]

theorem writePCAPHeader_eq (w : Sink) (maxLen : Nat) :
    writePCAPHeader w maxLen = w.Write (globalHeaderBytes (maxLen % 4294967296)) := by
  unfold writePCAPHeader pcap.MakeHeader
  rw [toUint32_natCast]
  have hlt : maxLen % 4294967296 < 4294967296 := Nat.mod_lt _ (by decide)
  simp only [hlt, if_true]
  rw [MarshalHeader_ethernet]
  rcases w.Write (globalHeaderBytes (maxLen % 4294967296)) with ⟨w1, _ | e⟩ <;> rfl

/-- C6, at the failing input. For `maxLen = 2^32`, outside the 32-bit unsigned range,
and a sink that accepts the write, `writePCAPHeader` returns no error: it writes the
header whose snapshot length field is 0. -/
theorem writePCAPHeader_wide_length :
    ¬ (4294967296 < 4294967296) ∧
    writePCAPHeader (Sink.fresh []) 4294967296
      = ({ written := [0xd4, 0xc3, 0xb2, 0xa1, 2, 0, 4, 0, 0, 0, 0, 0, 0, 0, 0, 0, 0, 0, 0, 0, 1, 0, 0, 0]
           calls := [[0xd4, 0xc3, 0xb2, 0xa1, 2, 0, 4, 0, 0, 0, 0, 0, 0, 0, 0, 0, 0, 0, 0, 0, 1, 0, 0, 0]]
           script := [] }, none) ∧
    LittleEndian.Uint32
      ([0xd4, 0xc3, 0xb2, 0xa1, 2, 0, 4, 0, 0, 0, 0, 0, 0, 0, 0, 0, 0, 0, 0, 0, 1, 0, 0, 0].drop 16)
      = 0 := by
  decide

/-- C7. For a snapshot length `L < 2^32` the bytes `writePCAPHeader` hands to the sink
are `globalHeaderBytes L`, whatever the sink is and does, so two calls with the same `L`
hand over the same bytes; bytes 16 to 19 decode little-endian to `L` and bytes 20 to 23
to the Ethernet link type. -/
theorem global_header_deterministic (L : Nat) (hL : L < 4294967296) (w w2 : Sink) :
    (writePCAPHeader w L).1.calls = w.calls ++ [globalHeaderBytes L] ∧
    (writePCAPHeader w2 L).1.calls = w2.calls ++ [globalHeaderBytes L] ∧
    (globalHeaderBytes L).length = 24 ∧
    LittleEndian.Uint32 ((globalHeaderBytes L).drop 16) = L ∧
    LittleEndian.Uint32 ((globalHeaderBytes L).drop 20) = pcap.LINKTYPE_ETHERNET ∧
    (globalHeaderBytes L).drop 16 = LittleEndian.PutUint32 L ++ [1, 0, 0, 0] := by
  have hcalls : ∀ v : Sink, (writePCAPHeader v L).1.calls = v.calls ++ [globalHeaderBytes L] := by
    intro v
    rw [writePCAPHeader_eq, Nat.mod_eq_of_lt hL]
    unfold Sink.Write
    rcases v.script with _ | ⟨o, rest⟩
    · rfl
    · cases o <;> rfl
  refine ⟨hcalls w, hcalls w2, ?_, ?_, ?_, ?_⟩
  · simp [globalHeaderBytes, LittleEndian.PutUint32]
  · simp [globalHeaderBytes, LittleEndian.PutUint32, LittleEndian.Uint32]
    omega
  · simp [globalHeaderBytes, LittleEndian.PutUint32, LittleEndian.Uint32, pcap.LINKTYPE_ETHERNET]
  · simp [globalHeaderBytes, LittleEndian.PutUint32, pcap.LINKTYPE_ETHERNET]

/-- Witness of C7 at the default snapshot length, for an empty sink and a failing one. -/
theorem global_header_deterministic_witness :
    65536 < 4294967296 ∧
    (writePCAPHeader (Sink.fresh []) 65536).1.calls = [] ++ [globalHeaderBytes 65536] ∧
    (writePCAPHeader (Sink.fresh [WriteOutcome.fail 3 (GoError.errno 28)]) 65536).1.calls
      = [] ++ [globalHeaderBytes 65536] :=
  have h := global_header_deterministic 65536 (by decide) (Sink.fresh [])
    (Sink.fresh [WriteOutcome.fail 3 (GoError.errno 28)])
  ⟨by decide, h.1, h.2.1⟩

/-! ## The reader on what the loop writes -/

theorem MarshalPacketHeader_length (ph : pcap.PacketHeader) :
    (binary.MarshalPacketHeader [] ph).length = 16 := by
  simp [binary.MarshalPacketHeader, LittleEndian.PutUint32]

theorem readRecords_nil (fuel : Nat) : readRecords fuel [] = some [] := by
  cases fuel <;> simp [readRecords]

theorem readRecords_record (fuel : Nat) (r : pcap.PacketHeader × List Nat) (rest : List Nat)
    (hr : WellFormedRecord r) :
    readRecords (fuel + 1) (recordBytes r ++ rest)
      = (readRecords fuel rest).map (fun recs => toPcapRecord r :: recs) := by
  obtain ⟨h1, h2, h3, h4, h5⟩ := hr
  have hs : LittleEndian.Uint32 (recordBytes r ++ rest) = r.1.Seconds := by
    simp [recordBytes, binary.MarshalPacketHeader, LittleEndian.PutUint32, LittleEndian.Uint32]
    omega
  have hm : LittleEndian.Uint32 ((recordBytes r ++ rest).drop 4) = r.1.Microseconds := by
    simp [recordBytes, binary.MarshalPacketHeader, LittleEndian.PutUint32, LittleEndian.Uint32]
    omega
  have hc : LittleEndian.Uint32 ((recordBytes r ++ rest).drop 8) = r.1.IncludedLength := by
    simp [recordBytes, binary.MarshalPacketHeader, LittleEndian.PutUint32, LittleEndian.Uint32]
    omega
  have ho : LittleEndian.Uint32 ((recordBytes r ++ rest).drop 12) = r.1.OriginalLength := by
    simp [recordBytes, binary.MarshalPacketHeader, LittleEndian.PutUint32, LittleEndian.Uint32]
    omega
  have hd : (recordBytes r ++ rest).drop 16 = r.2 ++ rest := by
    simp [recordBytes, binary.MarshalPacketHeader, LittleEndian.PutUint32]
  have hne : recordBytes r ++ rest ≠ [] := by
    simp [recordBytes, binary.MarshalPacketHeader, LittleEndian.PutUint32]
  have hlen : ¬ (recordBytes r ++ rest).length < 16 := by
    simp [recordBytes, binary.MarshalPacketHeader, LittleEndian.PutUint32]
  have hfit : ¬ (r.2 ++ rest).length < r.1.IncludedLength := by
    rw [List.length_append, h5]
    omega
  rw [readRecords]
  simp only [hne, if_false, hlen, hs, hm, hc, ho, hd, hfit]
  rw [← h5, List.drop_left, List.take_left]
  cases readRecords fuel rest with
  | none => rfl
  | some recs => simp only [Option.map_some', toPcapRecord, h5]

theorem readRecords_flatten (recs : List (pcap.PacketHeader × List Nat)) :
    ∀ fuel, (∀ r ∈ recs, WellFormedRecord r) →
      ((recs.map recordBytes).flatten).length ≤ fuel →
      readRecords fuel (recs.map recordBytes).flatten = some (recs.map toPcapRecord) := by
  induction recs with
  | nil => intro fuel _ _; exact readRecords_nil fuel
  | cons r rs ih =>
    intro fuel hwf hfuel
    have hr := hwf r (List.mem_cons_self _ _)
    have hrs : ∀ x ∈ rs, WellFormedRecord x := fun x hx => hwf x (List.mem_cons_of_mem _ hx)
    simp only [List.map_cons, List.flatten_cons, List.length_append] at hfuel ⊢
    have h16 : (recordBytes r).length = 16 + r.2.length := by
      simp [recordBytes, MarshalPacketHeader_length]
    cases fuel with
    | zero => omega
    | succ f =>
      rw [readRecords_record f r _ hr, ih f hrs (by omega)]
      rfl

/-! ## C4: round trip -/

theorem captureLoop_frames (L : Nat) (evs : List Recv) :
    ∀ st : State, st.out.NeverFails → st.packetBuf.length = L → (∀ ev ∈ evs, ev.IsFrame L) →
      ∃ (st1 : State) (recs : List (pcap.PacketHeader × List Nat)),
        captureLoop st evs = (Outcome.blocked, st1, []) ∧
        st1.out.written = st.out.written ++ (recs.map recordBytes).flatten ∧
        (∀ r ∈ recs, WellFormedRecord r) ∧
        recs.map (fun r => (toPcapRecord r).view) = evs.map (Recv.expected (L % 4294967296)) := by
  induction evs with
  | nil =>
    intro st _ _ _
    refine ⟨st, [], rfl, (List.append_nil _).symm, ?_, rfl⟩
    intro r hr
    cases hr
  | cons ev rest ih =>
    intro st hnf hlen hev
    obtain ⟨⟨ts, hacc⟩, h0, h1, hp, _⟩ := hev ev (List.mem_cons_self _ _)
    have hrest : ∀ x ∈ rest, x.IsFrame L := fun x hx => hev x (List.mem_cons_of_mem _ hx)
    obtain ⟨st1, recs, hrun, hwr, hwf, hview⟩ :=
      ih (recordWritten st ev ts) (recordWritten_neverFails st ev ts hnf)
        (by rw [← hlen]; exact storePayload_length _ _) hrest
    have hph := buildPacketHeader_eq L ev.n ts.Sec ts.Nsec
    have hn : toUint32 ev.n = ev.n.toNat := toUint32_of_range _ h0 h1
    have hmodle : L % 4294967296 ≤ L := Nat.mod_le _ _
    have hinc : (buildPacketHeader L ev.n ts.Sec ts.Nsec).IncludedLength
        = min ev.n.toNat (L % 4294967296) := by rw [hph, hn]
    have hdata : (storePayload st.packetBuf ev.payload).take
        (buildPacketHeader L ev.n ts.Sec ts.Nsec).IncludedLength
        = ev.payload.take (min ev.n.toNat (L % 4294967296)) := by
      rw [hinc]
      exact storePayload_take _ _ _ (by omega) (by omega)
    refine ⟨st1, (buildPacketHeader L ev.n ts.Sec ts.Nsec,
      ev.payload.take (min ev.n.toNat (L % 4294967296))) :: recs, ?_, ?_, ?_, ?_⟩
    · rw [captureLoop_cons_accepted st ev ts rest hnf hacc]
      exact hrun
    · rw [hwr]
      simp only [recordWritten, hlen, hdata, List.map_cons, List.flatten_cons, recordBytes,
        List.append_assoc]
    · intro r hr
      rcases List.mem_cons.mp hr with rfl | hr
      · have hlt := toUint32_lt ev.n
        refine ⟨?_, ?_, ?_, ?_, ?_⟩
        · rw [hph]; exact toUint32_lt _
        · rw [hph]; exact toUint32_lt _
        · rw [hinc]; omega
        · rw [hph]; exact hlt
        · rw [hinc, List.length_take]; omega
      · exact hwf r hr
    · rw [List.map_cons, List.map_cons, hview]
      congr 1
      simp only [toPcapRecord, PcapRecord.view, Recv.expected, hinc]
      rw [hph, hn]

theorem main_frames (L : Nat) (script : List WriteOutcome) (evs : List Recv)
    (hnf : (Sink.fresh script).NeverFails) (hev : ∀ ev ∈ evs, ev.IsFrame L) :
    ∃ st recs, main L (Sink.fresh script) evs = some (Outcome.blocked, st, []) ∧
      readPcap st.out.written = some (globalHeaderBytes (L % 4294967296), recs) ∧
      recs.map PcapRecord.view = evs.map (Recv.expected (L % 4294967296)) := by
  have hw : writePCAPHeader (Sink.fresh script) L
      = ({ written := [] ++ globalHeaderBytes (L % 4294967296),
           calls := [] ++ [globalHeaderBytes (L % 4294967296)], script := script.tail }, none) := by
    rw [writePCAPHeader_eq, Sink.Write_neverFails _ _ hnf]
    rfl
  obtain ⟨st1, recs, hrun, hwr, hwf, hview⟩ :=
    captureLoop_frames L evs
      (loopStart { written := [] ++ globalHeaderBytes (L % 4294967296),
                   calls := [] ++ [globalHeaderBytes (L % 4294967296)], script := script.tail } L)
      (NeverFails_tail (Sink.fresh script) hnf _ _) (List.length_replicate _ _) hev
  refine ⟨st1, recs.map toPcapRecord, ?_, ?_, ?_⟩
  · unfold main
    rw [hw]
    exact congrArg some hrun
  · have hg : (globalHeaderBytes (L % 4294967296)).length = 24 := by
      simp [globalHeaderBytes, LittleEndian.PutUint32]
    have hwr2 : st1.out.written
        = globalHeaderBytes (L % 4294967296) ++ (recs.map recordBytes).flatten := by
      rw [hwr]
      rfl
    unfold readPcap
    have hlen : ¬ st1.out.written.length < 24 := by
      rw [hwr2, List.length_append, hg]
      omega
    have hdrop : st1.out.written.drop 24 = (recs.map recordBytes).flatten := by
      rw [hwr2, ← hg, List.drop_left]
    have htake : st1.out.written.take 24 = globalHeaderBytes (L % 4294967296) := by
      rw [hwr2, ← hg, List.take_left]
    rw [if_neg hlen, hdrop, htake,
      readRecords_flatten recs _ hwf (by rw [hwr2, List.length_append]; omega)]
  · rw [List.map_map]
    exact hview

theorem twoByteRecv_isFrame : twoByteRecv.IsFrame 4294967297 :=
  ⟨⟨{ Sec := 5, Nsec := 1999 }, accepted_of_stamp twoByteRecv rfl (by decide)⟩, by decide,
    by decide, by decide, by decide⟩

/-- C4, at the failing input. With the snapshot length `2^32 + 1` (`-len 4294967297`),
a sink that never fails and one frame of the two bytes 7, 7, `ReadVec` returns both
bytes, `main` consumes the receive, and the reader of the format of section 6 finds in
what the sink holds one record of captured length 1 and original length 2 whose data is
the single byte 7; the first `min 2 (2^32 + 1)` bytes of the frame are 7, 7. -/
theorem capture_round_trip_wide_buffer :
    ReadVec 4294967297 twoByteFrame = twoByteRecv ∧
    (∃ st recs, capture 4294967297 (Sink.fresh []) [twoByteFrame]
        = some (Outcome.blocked, st, []) ∧
      readPcap st.out.written = some (globalHeaderBytes 1, recs) ∧
      recs.map PcapRecord.view = [(1, 2, [7])]) ∧
    [7, 7].take (min 2 4294967297) = [7, 7] := by
  have hr : ReadVec 4294967297 twoByteFrame = twoByteRecv := by decide
  have hnf : (Sink.fresh []).NeverFails := by
    intro o ho
    cases ho
  have hev : ∀ ev ∈ [twoByteRecv], ev.IsFrame 4294967297 := by
    intro ev hmem
    rcases List.mem_cons.mp hmem with rfl | hmem
    · exact twoByteRecv_isFrame
    · cases hmem
  obtain ⟨st, recs, hrun, hread, hview⟩ := main_frames 4294967297 [] [twoByteRecv] hnf hev
  refine ⟨hr, ⟨st, recs, ?_, hread, hview⟩, by decide⟩
  unfold capture
  rw [List.map_cons, List.map_nil, hr]
  exact hrun

/-! ## C5: three frames under the default snapshot length -/

theorem recordWritten_calls (st : State) (ev : Recv) (ts : Timespec) (L k : Nat)
    (hlen : st.packetBuf.length = L) (hL : L < 4294967296) (hn : ev.n = (k : Int))
    (hk : k < 4294967296) (hp : ev.payload.length = k) :
    (recordWritten st ev ts).out.calls
      = st.out.calls ++
        [binary.MarshalPacketHeader []
            { Seconds := toUint32 ts.Sec, Microseconds := toUint32 (Int.tdiv ts.Nsec Microsecond),
              IncludedLength := min k L, OriginalLength := k },
          ev.payload.take (min k L)] ∧
    (recordWritten st ev ts).out.written
      = st.out.written ++
        binary.MarshalPacketHeader []
            { Seconds := toUint32 ts.Sec, Microseconds := toUint32 (Int.tdiv ts.Nsec Microsecond),
              IncludedLength := min k L, OriginalLength := k } ++
        ev.payload.take (min k L) ∧
    (recordWritten st ev ts).packetBuf.length = L := by
  have hu : toUint32 ev.n = k := by
    rw [hn, toUint32_natCast, Nat.mod_eq_of_lt hk]
  have hph : buildPacketHeader st.packetBuf.length ev.n ts.Sec ts.Nsec
      = { Seconds := toUint32 ts.Sec, Microseconds := toUint32 (Int.tdiv ts.Nsec Microsecond),
          IncludedLength := min k L, OriginalLength := k } := by
    rw [buildPacketHeader_eq, hu, hlen, Nat.mod_eq_of_lt hL]
  have hdata : (storePayload st.packetBuf ev.payload).take (min k L)
      = ev.payload.take (min k L) :=
    storePayload_take _ _ _ (by omega) (by omega)
  refine ⟨?_, ?_, ?_⟩
  · simp only [recordWritten, hph, hdata]
  · simp only [recordWritten, hph, hdata]
  · simp only [recordWritten, storePayload_length, hlen]

theorem three_receives (L : Nat) (hL : L < 4294967296) (script : List WriteOutcome)
    (e1 e2 e3 : Recv) (t1 t2 t3 : Timespec) (k1 k2 k3 : Nat)
    (hnf : (Sink.fresh script).NeverFails)
    (a1 : e1.AcceptedWith t1) (a2 : e2.AcceptedWith t2) (a3 : e3.AcceptedWith t3)
    (n1 : e1.n = (k1 : Int)) (n2 : e2.n = (k2 : Int)) (n3 : e3.n = (k3 : Int))
    (b1 : k1 < 4294967296) (b2 : k2 < 4294967296) (b3 : k3 < 4294967296)
    (p1 : e1.payload.length = k1) (p2 : e2.payload.length = k2) (p3 : e3.payload.length = k3) :
    ∃ st, main L (Sink.fresh script) [e1, e2, e3] = some (Outcome.blocked, st, []) ∧
      st.out.calls =
        [globalHeaderBytes L,
         binary.MarshalPacketHeader []
           { Seconds := toUint32 t1.Sec, Microseconds := toUint32 (Int.tdiv t1.Nsec Microsecond),
             IncludedLength := min k1 L, OriginalLength := k1 },
         e1.payload.take (min k1 L),
         binary.MarshalPacketHeader []
           { Seconds := toUint32 t2.Sec, Microseconds := toUint32 (Int.tdiv t2.Nsec Microsecond),
             IncludedLength := min k2 L, OriginalLength := k2 },
         e2.payload.take (min k2 L),
         binary.MarshalPacketHeader []
           { Seconds := toUint32 t3.Sec, Microseconds := toUint32 (Int.tdiv t3.Nsec Microsecond),
             IncludedLength := min k3 L, OriginalLength := k3 },
         e3.payload.take (min k3 L)] ∧
      st.out.written = st.out.calls.flatten ∧ st.log = [] := by
  have hw : writePCAPHeader (Sink.fresh script) L
      = ((⟨[] ++ globalHeaderBytes L, [] ++ [globalHeaderBytes L], script.tail⟩ : Sink),
          none) := by
    rw [writePCAPHeader_eq, Sink.Write_neverFails _ _ hnf, Nat.mod_eq_of_lt hL]
    rfl
  have hnf0 : (loopStart ⟨[] ++ globalHeaderBytes L, [] ++ [globalHeaderBytes L],
      script.tail⟩ L).out.NeverFails :=
    NeverFails_tail (Sink.fresh script) hnf _ _
  have hl0 : (loopStart ⟨[] ++ globalHeaderBytes L, [] ++ [globalHeaderBytes L],
      script.tail⟩ L).packetBuf.length = L := List.length_replicate _ _
  have hlog0 : (loopStart ⟨[] ++ globalHeaderBytes L, [] ++ [globalHeaderBytes L],
      script.tail⟩ L).log = [] := rfl
  generalize hs0 : loopStart ⟨[] ++ globalHeaderBytes L, [] ++ [globalHeaderBytes L],
      script.tail⟩ L = s0 at hnf0 hl0 hlog0
  have hc0 : s0.out.calls = [globalHeaderBytes L] ∧ s0.out.written = globalHeaderBytes L := by
    rw [← hs0]
    exact ⟨rfl, rfl⟩
  have hnf1 := recordWritten_neverFails s0 e1 t1 hnf0
  have hnf2 := recordWritten_neverFails _ e2 t2 hnf1
  obtain ⟨c1, w1, l1⟩ := recordWritten_calls s0 e1 t1 L k1 hl0 hL n1 b1 p1
  obtain ⟨c2, w2, l2⟩ := recordWritten_calls (recordWritten s0 e1 t1) e2 t2 L k2 l1 hL n2 b2 p2
  obtain ⟨c3, w3, _⟩ := recordWritten_calls (recordWritten (recordWritten s0 e1 t1) e2 t2) e3 t3
    L k3 l2 hL n3 b3 p3
  refine ⟨recordWritten (recordWritten (recordWritten s0 e1 t1) e2 t2) e3 t3, ?_, ?_, ?_, ?_⟩
  · unfold main
    rw [hw]
    dsimp only
    change some (captureLoop (loopStart ⟨[] ++ globalHeaderBytes L,
      [] ++ [globalHeaderBytes L], script.tail⟩ L) [e1, e2, e3]) = _
    rw [hs0, captureLoop_cons_accepted s0 e1 t1 _ hnf0 a1,
      captureLoop_cons_accepted _ e2 t2 _ hnf1 a2, captureLoop_cons_accepted _ e3 t3 _ hnf2 a3]
    rfl
  · rw [c3, c2, c1, hc0.1]
    rfl
  · rw [w3, w2, w1, hc0.2, c3, c2, c1, hc0.1]
    simp only [List.cons_append, List.nil_append, List.flatten_cons, List.flatten_nil,
      List.append_assoc, List.append_nil]
  · exact hlog0

/-- C5, at the failing input. With the snapshot length 65536, a sink that never fails
and three frames of 40, 2000 and 70000 bytes arriving in that order, `ReadVec` returns
the count 65536 with `errMessageTruncated` for the third frame, and `main` makes seven
writes: the global header, then record headers with captured and original lengths
(40, 40), (2000, 2000) and (65536, 65536), each followed by that many bytes of its frame.
The original length stored for the third frame is 65536, not 70000. -/
theorem three_frames_end_to_end :
    ReadVec 65536 (uniformFrame 70000 3)
      = { n := 65536, err := some errMessageTruncated,
          payload := (List.replicate 70000 3).take 65536, control := timestampMessage 5 1999 } ∧
    (∃ st, capture 65536 (Sink.fresh [])
          [uniformFrame 40 1, uniformFrame 2000 2, uniformFrame 70000 3]
        = some (Outcome.blocked, st, []) ∧
      st.out.calls =
        [globalHeaderBytes 65536,
         [5, 0, 0, 0, 1, 0, 0, 0, 40, 0, 0, 0, 40, 0, 0, 0], List.replicate 40 1,
         [5, 0, 0, 0, 1, 0, 0, 0, 208, 7, 0, 0, 208, 7, 0, 0], List.replicate 2000 2,
         [5, 0, 0, 0, 1, 0, 0, 0, 0, 0, 1, 0, 0, 0, 1, 0], List.replicate 65536 3] ∧
      st.out.written = st.out.calls.flatten) ∧
    LittleEndian.Uint32 ([5, 0, 0, 0, 1, 0, 0, 0, 0, 0, 1, 0, 0, 0, 1, 0].drop 8) = 65536 ∧
    LittleEndian.Uint32 ([5, 0, 0, 0, 1, 0, 0, 0, 0, 0, 1, 0, 0, 0, 1, 0].drop 12) = 65536 ∧
    (65536 : Nat) ≠ 70000 := by
  have hr1 : ReadVec 65536 (uniformFrame 40 1)
      = ⟨((40 : Nat) : Int), none, List.replicate 40 1, timestampMessage 5 1999⟩ :=
    ReadVec_fits 65536 _ _ 40 (List.length_replicate _ _) (by decide) (by decide)
  have hr2 : ReadVec 65536 (uniformFrame 2000 2)
      = ⟨((2000 : Nat) : Int), none, List.replicate 2000 2, timestampMessage 5 1999⟩ :=
    ReadVec_fits 65536 _ _ 2000 (List.length_replicate _ _) (by decide) (by decide)
  have hr3 : ReadVec 65536 (uniformFrame 70000 3)
      = ⟨((65536 : Nat) : Int), some errMessageTruncated, (List.replicate 70000 3).take 65536,
          timestampMessage 5 1999⟩ :=
    ReadVec_truncated 65536 _ _ 70000 (List.length_replicate _ _) (by decide)
  have hp3 : ((List.replicate 70000 3).take 65536).length = 65536 := by
    rw [List.take_replicate, List.length_replicate]
    decide
  have hnf : (Sink.fresh []).NeverFails := fun o ho => by cases ho
  obtain ⟨st, hrun, hcalls, hwr, _⟩ := three_receives 65536 (by decide) []
    ⟨((40 : Nat) : Int), none, List.replicate 40 1, timestampMessage 5 1999⟩
    ⟨((2000 : Nat) : Int), none, List.replicate 2000 2, timestampMessage 5 1999⟩
    ⟨((65536 : Nat) : Int), some errMessageTruncated, (List.replicate 70000 3).take 65536,
      timestampMessage 5 1999⟩
    { Sec := 5, Nsec := 1999 } { Sec := 5, Nsec := 1999 } { Sec := 5, Nsec := 1999 }
    40 2000 65536 hnf
    (accepted_of_stamp _ rfl (by decide)) (accepted_of_stamp _ rfl (by decide))
    (accepted_of_stamp _ rfl (by decide)) rfl rfl rfl (by decide) (by decide) (by decide)
    (List.length_replicate _ _) (List.length_replicate _ _) hp3
  refine ⟨hr3, ⟨st, ?_, ?_, hwr⟩, by decide, by decide, by decide⟩
  · unfold capture
    rw [List.map_cons, List.map_cons, List.map_cons, List.map_nil, hr1, hr2, hr3]
    exact hrun
  · rw [hcalls]
    have d1 : (List.replicate 40 1).take (min 40 65536) = List.replicate 40 1 := by
      rw [List.take_replicate]
      exact congrArg (fun k => List.replicate k 1) (by decide)
    have d2 : (List.replicate 2000 2).take (min 2000 65536) = List.replicate 2000 2 := by
      rw [List.take_replicate]
      exact congrArg (fun k => List.replicate k 2) (by decide)
    have d3 : ((List.replicate 70000 3).take 65536).take (min 65536 65536)
        = List.replicate 65536 3 := by
      rw [List.take_replicate, List.take_replicate]
      exact congrArg (fun k => List.replicate k 3) (by decide)
    refine congrArg₂ List.cons rfl ?_
    refine congrArg₂ List.cons (by decide) ?_
    refine congrArg₂ List.cons d1 ?_
    refine congrArg₂ List.cons (by decide) ?_
    refine congrArg₂ List.cons d2 ?_
    refine congrArg₂ List.cons (by decide) ?_
    exact congrArg₂ List.cons d3 rfl

end Tcpdump
